import Mathlib

/-!
Verification of the dependency-graph resolver in `kr/vexp` (`main.go`).

The Go code is shallowly embedded: Go strings are modelled as Lean
`String`s (lists of characters; the Go code indexes bytes, which agrees
with the character view on ASCII data, and no byte of a multi-byte UTF-8
character can equal `'/'`, so path-boundary scans agree in general),
pointers are modelled by values, and the in-place mutations of a
`Package` become functional updates.  External collaborators
(`go/build`'s metadata loader, the filesystem, `unicode.SimpleFold`,
`filepath.Clean`) are passed in as explicit function parameters, exactly
at the points where the Go code calls them.  The target platform is
linux, so `filepath.Separator` and `os.PathSeparator` are `'/'`.
-/

/-- PackageError mirrors the Go struct `PackageError` of main.go
(import stack, position, message, and the two flags). -/
structure PackageError where
  ImportStack : List String
  Pos : String
  Err : String
  isImportCycle : Bool
  hard : Bool
  deriving DecidableEq, Repr

/-- BuildPackage models the fields of `build.Package` (the external
`go/build` metadata record) that main.go reads: name, directories, import
path, the Goroot flag, the import comment, the three import
lists, the thirteen source-file-name lists fed to the collision check,
and the per-import source positions (kept as already-rendered strings,
since `token.Position` is external). -/
structure BuildPackage where
  Name : String
  Dir : String
  Root : String
  ImportPath : String
  Goroot : Bool
  ImportComment : String
  Imports : List String
  TestImports : List String
  XTestImports : List String
  GoFiles : List String
  CgoFiles : List String
  IgnoredGoFiles : List String
  CFiles : List String
  CXXFiles : List String
  MFiles : List String
  HFiles : List String
  SFiles : List String
  SysoFiles : List String
  SwigFiles : List String
  SwigCXXFiles : List String
  TestGoFiles : List String
  XTestGoFiles : List String
  ImportPos : List (String × List String)
  deriving DecidableEq, Repr

/-- Package mirrors the Go struct `Package` of main.go: the embedded
`build.Package`, the `Standard` flag, the optional load error, the
`loadedDeps` flag and the dependency list.  It is an inductive type
because `deps` nests `Package` inside `List`. -/
inductive Package where
  | mk (build : BuildPackage) (Standard : Bool) (Error : Option PackageError)
      (loadedDeps : Bool) (deps : List Package)
  deriving Repr

def Package.build : Package → BuildPackage
  | .mk b _ _ _ _ => b

def Package.Standard : Package → Bool
  | .mk _ s _ _ _ => s

def Package.Error : Package → Option PackageError
  | .mk _ _ e _ _ => e

def Package.loadedDeps : Package → Bool
  | .mk _ _ _ l _ => l

def Package.deps : Package → List Package
  | .mk _ _ _ _ d => d

def Package.ImportPath (p : Package) : String := p.build.ImportPath

def Package.Name (p : Package) : String := p.build.Name

def Package.Dir (p : Package) : String := p.build.Dir

/-- Functional update of the `Error` field (Go mutates `p.Error`). -/
def Package.withError : Package → Option PackageError → Package
  | .mk b s _ l d, e => .mk b s e l d

/-! ## Byte-wise string comparison

Go compares strings byte-wise.  On UTF-8 data the byte-wise order equals
the code-point order, so the model compares character lists; the core
`String` order instances are avoided because their byte-iterator
implementation does not evaluate inside the kernel. -/

/-- strLtb is Go's `s < t` on strings, as code-point lists. -/
def strLtb : List Char → List Char → Bool
  | [], [] => false
  | [], _ :: _ => true
  | _ :: _, [] => false
  | a :: as, b :: bs => if a = b then strLtb as bs else decide (a < b)

/-- strLt is Go's `s < t` on strings. -/
def strLt (s t : String) : Bool := strLtb s.toList t.toList

/-- strLe is Go's `s <= t` on strings. -/
def strLe (s t : String) : Bool := !strLtb t.toList s.toList

/-! ## importStack (main.go lines 116-146) -/

/-- Tie-break loop of `importStack.shorterThan`: scan both stacks in
parallel and decide by the first differing entry (Go lines 140-144).
It is only reached on stacks of equal length. -/
def shorterTie : List String → List String → Bool
  | [], _ => false
  | _ :: _, [] => false
  | a :: as, b :: bs => if a ≠ b then strLt a b else shorterTie as bs

/-- shorterThan mirrors `importStack.shorterThan` of main.go: a stack of
different length is shorter iff its length is smaller; equal lengths are
settled by string ordering at the first difference; equal stacks are not
shorter. -/
def shorterThan (s t : List String) : Bool :=
  if s.length ≠ t.length then decide (s.length < t.length) else shorterTie s t

/-! ## reusePackage (main.go lines 562-582) -/

/-- cycleError is the `PackageError` that `reusePackage` allocates:
message "import cycle not allowed", the given stack, cycle flag set. -/
def cycleError (stk : List String) : PackageError :=
  { ImportStack := stk, Pos := "", Err := "import cycle not allowed",
    isImportCycle := true, hard := false }

/-- attachCycleIfLoaded is the first statement of `reusePackage`
(main.go lines 566-575), written exactly as in the source: when
`p.loadedDeps` holds and no error is set, attach the import-cycle error
carrying the current stack. -/
def attachCycleIfLoaded (p : Package) (stk : List String) : Package :=
  if p.loadedDeps then
    match p.Error with
    | none => p.withError (some (cycleError stk))
    | some _ => p
  else p

/-- refreshShorterStack is the second statement of `reusePackage`
(main.go lines 576-580): a non-cycle error whose stored stack is longer
(under `shorterThan`) than the current stack gets its stack replaced. -/
def refreshShorterStack (p : Package) (stk : List String) : Package :=
  match p.Error with
  | some e =>
      if ¬e.isImportCycle ∧ shorterThan stk e.ImportStack then
        p.withError (some { e with ImportStack := stk })
      else p
  | none => p

/-- reusePackage mirrors `reusePackage` of main.go: the cycle-attach
statement followed by the stack-refresh statement on the same package. -/
def reusePackage (p : Package) (stk : List String) : Package :=
  refreshShorterStack (attachCycleIfLoaded p stk) stk

/-! ## dependencies and inCWD (main.go lines 88-105, 499-502) -/

/-- inCWD mirrors `inCWD` of main.go: the path is the current working
directory itself or lies strictly below it (separator `'/'` on linux). -/
def inCWD (cwd path : String) : Bool :=
  path == cwd || (cwd ++ "/").toList.isPrefixOf path.toList

/-- depLe is the ordering used by `sort.Sort(byImportPath(deps))`:
ascending resolved import path. -/
def depLe (a b : Package) : Prop := strLe a.ImportPath b.ImportPath = true

instance : DecidableRel depLe := fun a b => by
  unfold depLe; infer_instance

/-- dependencies mirrors `dependencies` of main.go: for every root in
order, keep each entry of its dependency list whose directory is not
under `cwd`, then sort the concatenation by import path.  Go's
`sort.Sort` produces a permutation ordered by `byImportPath`; it is
modelled by insertion sort, which is one such permutation. -/
def dependencies (cwd : String) (packages : List Package) : List Package :=
  List.insertionSort depLe
    ((packages.map fun p => p.deps.filter fun d => !inCWD cwd d.Dir).flatten)

/-! ## hasPathPrefix and isSeen (main.go lines 107-114, 670-684) -/

/-- hasPathPfx mirrors `hasPathPrefix` of main.go: equal lengths compare
the whole strings; a longer `s` is tested against a pattern ending in
`'/'` by plain HasPrefix, and otherwise the character of `s` right after
the pattern must be `'/'` and the preceding characters must equal it. -/
def hasPathPfx (s pre : String) : Bool :=
  if s.length = pre.length then s == pre
  else if pre.length < s.length then
    if pre ≠ "" && (pre.toList.getLast? == some '/') then
      pre.toList.isPrefixOf s.toList
    else
      (s.toList.getD pre.length ' ' == '/') && decide (s.toList.take pre.length = pre.toList)
  else false

/-- isSeen mirrors `isSeen` of main.go: some already-seen path covers
the package's import path in the sense of `hasPathPrefix`. -/
def isSeen (pkg : Package) (seen : List String) : Bool :=
  seen.any fun pre => hasPathPfx pkg.ImportPath pre

/-! ## toFold and foldDup (main.go lines 711-766) -/

/-- foldLoop is the inner loop of `toFold`: repeatedly apply
`unicode.SimpleFold` (passed in as `sf`, an external library function)
until it wraps around (result not above the argument), yielding the
minimum of the fold orbit.  While the loop runs the character strictly
increases and characters are bounded by `0x110000`, so that many steps
of fuel make the model total without changing any reachable behaviour. -/
def foldLoop (sf : Char → Char) : Nat → Char → Char
  | 0, r => r
  | fuel + 1, r =>
      let r1 := sf r
      if r1 ≤ r then r1 else foldLoop sf fuel r1

/-- foldChar is the per-rune body of `toFold`'s slow path: minimise over
the fold orbit, then map `'A'`-`'Z'` down to `'a'`-`'z'`. -/
def foldChar (sf : Char → Char) (r : Char) : Char :=
  let m := foldLoop sf 1114112 r
  if 'A' ≤ m ∧ m ≤ 'Z' then Char.ofNat (m.toNat + 32) else m

/-- toFold mirrors `toFold` of main.go: the fast path returns the string
unchanged when every character is plain ASCII without upper-case
letters; otherwise every character is folded by `foldChar`. -/
def toFold (sf : Char → Char) (s : String) : String :=
  if s.toList.all fun c => c.toNat < 0x80 && !('A' ≤ c && c ≤ 'Z') then s
  else String.mk (s.toList.map (foldChar sf))

/-- clashLookup models reading the Go map `clash[fold]`, whose zero
value for a missing key is `""`. -/
def clashLookup (m : List (String × String)) (k : String) : String :=
  match m.find? fun kv => kv.1 == k with
  | some kv => kv.2
  | none => ""

/-- foldDupGo is the loop of `foldDup`: walk the list, record the first
original seen for each folded form, and report the first pair whose
folded forms clash (smaller string first). -/
def foldDupGo (sf : Char → Char) : List String → List (String × String) → String × String
  | [], _ => ("", "")
  | s :: rest, clash =>
      let fold := toFold sf s
      let t := clashLookup clash fold
      if t ≠ "" then
        if strLt t s then (t, s) else (s, t)
      else foldDupGo sf rest ((fold, s) :: clash)

/-- foldDup mirrors `foldDup` of main.go. -/
def foldDup (sf : Char → Char) (list : List String) : String × String :=
  foldDupGo sf list []

/-! ## vendoredImportPath (main.go lines 408-472) -/

/-- ParentInfo carries the fields of the parent `Package` that
`vendoredImportPath` reads. -/
structure ParentInfo where
  Dir : String
  Root : String
  ImportPath : String
  deriving DecidableEq, Repr

/-- joinP models `filepath.Join` on the already-clean components the
walk produces: an empty first element is dropped, otherwise the two
parts are glued with a single separator. -/
def joinP (a b : String) : String := if a = "" then b else a ++ "/" ++ b

/-- vipFound computes the expanded import path once `vendor/<path>` was
found after chopping `chopped` characters off the parent directory
(main.go lines 458-466): chopping exactly one character more than the
whole parent import path yields bare `vendor/<path>`; chopping even more
would make the Go slice expression panic (modelled as `none`); otherwise
the parent import path loses its last `chopped` characters and
`/vendor/<path>` is appended. -/
def vipFound (ip vpath : String) (chopped : Nat) : Option (String × List String) :=
  if chopped = ip.length + 1 then some (vpath, [])
  else if ip.length < chopped then none
  else some (String.mk (ip.toList.take (ip.length - chopped)) ++ "/" ++ vpath, [])

/-- vipStep is one iteration of the upward walk at cut position `i`
(main.go lines 438-469): skip positions that are not a path-segment
boundary, skip boundaries without a `vendor` directory, return the
expansion when `vendor/<path>` exists, and otherwise note the examined
candidate.  `Sum.inl` carries the updated `searched` list of a
continuing iteration, `Sum.inr` a returned result. -/
def vipStep (isDir : String → Bool) (dirL : List Char) (ip vpath : String)
    (i : Nat) (searched : List String) : (List String) ⊕ (Option (String × List String)) :=
  if i < dirL.length ∧ ¬dirL.getD i ' ' = '/' then .inl searched
  else if ¬isDir (joinP (String.mk (dirL.take i)) "vendor") = true then .inl searched
  else if isDir (joinP (String.mk (dirL.take i)) vpath) = true then
    .inr (vipFound ip vpath (dirL.length - i))
  else .inl (searched ++ [joinP (String.mk (dirL.take i)) vpath])

/-- vipLoop is the walk `for i := len(dir); i >= len(root); i--` of
main.go: run `vipStep` at every position from `i` down to `rootLen` and
fall through to `(path, searched)` when the loop ends. -/
def vipLoop (isDir : String → Bool) (dirL : List Char) (rootLen : Nat)
    (ip vpath path : String) : Nat → List String → Option (String × List String)
  | 0, searched =>
      if 0 < rootLen then some (path, searched)
      else
        match vipStep isDir dirL ip vpath 0 searched with
        | .inl s => some (path, s)
        | .inr r => r
  | i + 1, searched =>
      if i + 1 < rootLen then some (path, searched)
      else
        match vipStep isDir dirL ip vpath (i + 1) searched with
        | .inl s => vipLoop isDir dirL rootLen ip vpath path i s
        | .inr r => r

/-- vendoredImportPath mirrors `vendoredImportPath` of main.go.  The
external collaborators appear as parameters: `skip` is the `skipVendor`
predicate list, `isDir` the (memoised) directory-existence check,
`cleanF` is `filepath.Clean`, `cwd` the current working directory.  The
`log.Printf`/`os.Exit(1)` branch for an invalid dir/root pair and the
panic of an out-of-range slice in the expansion are modelled as `none`. -/
def vendoredImportPath (skip : List (String → Bool)) (isDir : String → Bool)
    (cleanF : String → String) (cwd : String)
    (parent : Option ParentInfo) (path : String) : Option (String × List String) :=
  match parent with
  | none => some (path, [])
  | some par =>
      if skip.any (fun m => m path) then some (path, [])
      else
        let dir := cleanF par.Dir
        let root := cleanF par.Root
        if ¬root.toList.isPrefixOf dir.toList = true ∨ dir.length ≤ root.length ∨
            ¬dir.toList.getD root.length ' ' = '/' then
          none
        else if inCWD cwd dir = false then some (path, [])
        else
          vipLoop isDir dir.toList root.length par.ImportPath ("vendor/" ++ path) path
            dir.length []

/-- stepCand states that cut position `i` succeeds in the walk: `i` is a
path-segment boundary of `dir` (its very end, or a separator), a
`vendor` directory exists at the corresponding ancestor, and
`vendor/<path>` exists inside it. -/
def stepCand (isDir : String → Bool) (dirL : List Char) (vpath : String) (i : Nat) : Prop :=
  ¬(i < dirL.length ∧ ¬dirL.getD i ' ' = '/') ∧
  isDir (joinP (String.mk (dirL.take i)) "vendor") = true ∧
  isDir (joinP (String.mk (dirL.take i)) vpath) = true

instance (isDir : String → Bool) (dirL : List Char) (vpath : String) (i : Nat) :
    Decidable (stepCand isDir dirL vpath i) := by
  unfold stepCand; infer_instance

/-- searchedHit is the contribution of cut position `i` to the list of
examined candidates: the `vendor/<path>` name is noted exactly when the
position is a boundary whose `vendor` directory exists but whose
`vendor/<path>` does not. -/
def searchedHit (isDir : String → Bool) (dirL : List Char) (vpath : String) (i : Nat) :
    List String :=
  if ¬(i < dirL.length ∧ ¬dirL.getD i ' ' = '/') ∧
      isDir (joinP (String.mk (dirL.take i)) "vendor") = true ∧
      isDir (joinP (String.mk (dirL.take i)) vpath) = false
  then [joinP (String.mk (dirL.take i)) vpath] else []

/-- searchedFrom collects the examined candidates from position `i` down
to `rootLen`, deepest first, mirroring the append order of the walk. -/
def searchedFrom (isDir : String → Bool) (dirL : List Char) (rootLen : Nat)
    (vpath : String) : Nat → List String
  | 0 => if 0 < rootLen then [] else searchedHit isDir dirL vpath 0
  | i + 1 =>
      if i + 1 < rootLen then [] else
        searchedHit isDir dirL vpath (i + 1) ++ searchedFrom isDir dirL rootLen vpath i

/-! ## String helpers shared by the loader (strings.Contains,
strings.SplitAfter, %q rendering, build.IsLocalImport) -/

/-- strContains models `strings.Contains`: some suffix of `s` starts
with `sub`. -/
def strContains (s sub : String) : Bool :=
  (List.range (s.length + 1)).any fun i => sub.toList.isPrefixOf (s.toList.drop i)

/-- splitAfterNLGo is the worker of `strings.SplitAfter(text, "\n")`:
split after every newline, keeping it, with a final (possibly empty)
remainder. -/
def splitAfterNLGo : List Char → List Char → List (List Char)
  | [], acc => [acc.reverse]
  | c :: rest, acc =>
      if c = '\n' then (acc.reverse ++ ['\n']) :: splitAfterNLGo rest []
      else splitAfterNLGo rest (c :: acc)

/-- splitAfterNL models `strings.SplitAfter(s, "\n")`. -/
def splitAfterNL (s : String) : List String :=
  (splitAfterNLGo s.toList []).map String.mk

/-- quoteGo renders a string the way `%q` does for strings without
escape-worthy characters (every string the claims touch). -/
def quoteGo (s : String) : String := "\"" ++ s ++ "\""

/-- IsLocalImport mirrors `build.IsLocalImport` of go/build: the path is
`.` or `..` or begins with `./` or `../`. -/
def IsLocalImport (path : String) : Bool :=
  path == "." || path == ".." ||
    ("./" : String).toList.isPrefixOf path.toList ||
    ("../" : String).toList.isPrefixOf path.toList

/-! ## loadDeps (main.go lines 279-392) -/

/-- allSourceFiles is the `stringList(...)` argument of the file-name
collision check in `loadDeps`: the thirteen source-file lists
concatenated in source order. -/
def allSourceFiles (bp : BuildPackage) : List String :=
  bp.GoFiles ++ bp.CgoFiles ++ bp.IgnoredGoFiles ++ bp.CFiles ++ bp.CXXFiles ++
    bp.MFiles ++ bp.HFiles ++ bp.SFiles ++ bp.SysoFiles ++ bp.SwigFiles ++
    bp.SwigCXXFiles ++ bp.TestGoFiles ++ bp.XTestGoFiles

/-- importPosLookup models the read `p.Package.ImportPos[path]` (empty
list for a missing key). -/
def importPosLookup (bp : BuildPackage) (path : String) : List String :=
  match bp.ImportPos.find? fun kv => kv.1 == path with
  | some kv => kv.2
  | none => []

/-- errWithPos applies the Go pattern `if len(pos) > 0 then
Error.Pos = pos[0]`. -/
def errWithPos (e : PackageError) (pos : List String) : PackageError :=
  match pos with
  | [] => e
  | p0 :: _ => { e with Pos := p0 }

/-- mkLoadErr builds the plain (non-cycle) `PackageError` that
`loadDeps` allocates: the copied stack and a message. -/
def mkLoadErr (stk : List String) (msg : String) : PackageError :=
  { ImportStack := stk, Pos := "", Err := msg, isImportCycle := false, hard := false }

/-- mapInsert models assignment into a Go map represented as an
association list with unique keys: overwrite the entry if the key is
present, append it otherwise. -/
def mapInsert (k : String) (v : Package) : List (String × Package) → List (String × Package)
  | [] => [(k, v)]
  | kv :: rest => if kv.1 = k then (k, v) :: rest else kv :: mapInsert k v rest

/-- DepsLoopSt is the state the import loop of `loadDeps` mutates: the
embedded build record (its `Imports` entries get rewritten to resolved
paths), the package error and the `deps` map. -/
structure DepsLoopSt where
  build : BuildPackage
  perr : Option PackageError
  deps : List (String × Package)

/-- loopStepProgErr is the `p1.Name == "main"` check of the import loop
(main.go lines 339-348): record the program-import error, with the first
rendered import position when one exists. -/
def loopStepProgErr (p1 : Package) (stk : List String) (path : String)
    (st : DepsLoopSt) : DepsLoopSt :=
  if p1.Name = "main" then
    { st with perr := some (errWithPos
        (mkLoadErr stk ("import " ++ quoteGo path ++
          " is a program, not an importable package"))
        (importPosLookup st.build path)) }
  else st

/-- loopStepImports is `if i < len(p.Imports) then p.Imports[i] = path`
of the import loop (main.go lines 349-352): rewrite the stored raw import
entry to the resolved path. -/
def loopStepImports (rpath : String) (i : Nat) (st : DepsLoopSt) : DepsLoopSt :=
  if i < st.build.Imports.length then
    { st with build := { st.build with Imports := st.build.Imports.set i rpath } }
  else st

/-- loopStepDeps merges the resolved package and, transitively, all of
its dependencies into the `deps` map (main.go lines 356-359). -/
def loopStepDeps (p1 : Package) (st : DepsLoopSt) : DepsLoopSt :=
  { st with deps :=
      (p1.deps.foldl (fun acc dep => mapInsert dep.ImportPath dep acc)
        (mapInsert p1.ImportPath p1 st.deps)) }

/-- loadDepsLoop mirrors the loop `for i, path := range importPaths` of
`loadDeps` (main.go lines 323-360).  `loadImp` stands for the recursive
call `loadImport(path, p.Dir, p, stk, p.Package.ImportPos[path])`; the
returned flag records whether the loop returned early (which only the
local-import branch does). -/
def loadDepsLoop (loadImp : String → Package) (stk : List String) :
    List String → Nat → DepsLoopSt → DepsLoopSt × Bool
  | [], _, st => (st, false)
  | path :: rest, i, st =>
      if path = "C" then loadDepsLoop loadImp stk rest (i + 1) st
      else if IsLocalImport path then
        ({ st with perr := some (errWithPos
            (mkLoadErr stk ("local import " ++ quoteGo path ++ " in non-local package"))
            (importPosLookup st.build path)) }, true)
      else
        let p1 := loadImp path
        let st2 := loopStepImports p1.ImportPath i (loopStepProgErr p1 stk path st)
        if p1.Standard then loadDepsLoop loadImp stk rest (i + 1) st2
        else loadDepsLoop loadImp stk rest (i + 1) (loopStepDeps p1 st2)

/-- entryLe orders `deps` map entries by key; sorting entries by key and
projecting is how the model renders Go's `sort.Strings(depPaths)`
followed by lookups (the looked-up value can never be missing, which is
exactly what the `panic` branch of main.go line 372 asserts). -/
def entryLe (a b : String × Package) : Prop := strLe a.1 b.1 = true

instance : DecidableRel entryLe := fun a b => by
  unfold entryLe; infer_instance

/-- loadDepsFinish is the tail of `loadDeps` after the import loop
(main.go lines 361-391): on an early return the package keeps its old
dependency list and `loadedDeps` flag; otherwise the `deps` map entries
are sorted by key (Go sorts `depPaths` and looks each key up — the
lookup can never miss, which is what the panic on line 372 asserts),
appended to `p.deps`, `loadedDeps` is set, and — only in the absence of
errors on the collected dependencies — the case-insensitive collision
check runs over the sorted key list. -/
def loadDepsFinish (sf : Char → Char) (p : Package) (stk : List String)
    (res : DepsLoopSt × Bool) : Package :=
  if res.2 then Package.mk res.1.build p.Standard res.1.perr p.loadedDeps p.deps
  else
    let entries := List.insertionSort entryLe res.1.deps
    let depPaths := entries.map Prod.fst
    let depList := entries.map Prod.snd
    let hasDepErr := depList.any fun q => q.Error.isSome
    let perr2 :=
      if hasDepErr = false then
        let dd := foldDup sf depPaths
        if dd.1 ≠ "" then
          some (mkLoadErr stk
            ("case-insensitive import collision: " ++ quoteGo dd.1 ++ " and " ++ quoteGo dd.2))
        else res.1.perr
      else res.1.perr
    Package.mk res.1.build p.Standard perr2 true (p.deps ++ depList)

/-- loadDeps mirrors `loadDeps` of main.go.  `sf` is
`unicode.SimpleFold`; `loadImp` the recursive loader; `err` the error
returned by the metadata loader for `p` itself.  Early returns leave
`loadedDeps` unset and the dependency list untouched, exactly as in the
Go code. -/
def loadDeps (sf : Char → Char) (loadImp : String → Package) (p : Package)
    (stk : List String) (err : Option String) : Package :=
  match err with
  | some msg => p.withError (some (mkLoadErr stk msg))
  | none =>
      let importPaths := p.build.Imports ++ p.build.TestImports ++ p.build.XTestImports
      let fd := foldDup sf (allSourceFiles p.build)
      if fd.1 ≠ "" then
        p.withError (some (mkLoadErr stk
          ("case-insensitive file name collision: " ++ quoteGo fd.1 ++ " and " ++ quoteGo fd.2)))
      else
        loadDepsFinish sf p stk (loadDepsLoop loadImp stk importPaths 0 ⟨p.build, p.Error, []⟩)

/-! ## copyBuild and loadImport (main.go lines 157-160, 200-277) -/

/-- copyBuild mirrors `Package.copyBuild` applied to the freshly
allocated, zero-valued `Package` of `loadImport`: adopt the build record
and derive the `Standard` flag (`p.Goroot` set, nonempty import path,
no `'.'` anywhere in it). -/
def copyBuild (bp : BuildPackage) : Package :=
  Package.mk bp (bp.Goroot && bp.ImportPath != "" && !strContains bp.ImportPath ".") none false []

/-- cacheLookup models reading `packageCache[importPath]` (a missing key
is Go's nil pointer, here `none`). -/
def cacheLookup (cache : List (String × Package)) (k : String) : Option Package :=
  (cache.find? fun kv => kv.1 == k).map Prod.snd

/-- adjustVendorErr mirrors the error-text surgery of main.go lines
242-258: when the loader failed, vendor directories were searched, and
the message has the go/build "cannot find package" shape, splice the
searched vendor directories in after the first line. -/
def adjustVendorErr (err : Option String) (vendorSearch : List String) : Option String :=
  match err with
  | none => none
  | some text =>
      if vendorSearch ≠ [] ∧ strContains text "cannot find package \"" = true ∧
          strContains text "\" in any of:\n\t" = true then
        let old := splitAfterNL text
        let lines := [old.headD ""] ++
          vendorSearch.map (fun dir => "\t" ++ dir ++ " (vendor tree)\n") ++ old.drop 1
        some (String.join lines)
      else some text

/-- loadImportModel mirrors `loadImport` of main.go.  `importFn` is the
external collaborator `buildContext.Import` (returning a build record
and an optional error string); `loadDepsFn` stands for the call to
`loadDeps`; the cache is passed and returned explicitly (Go mutates a
process-wide map); `importPos` carries the rendered source positions of
the import (main.go shortens the filename via `shortPath` before
rendering, which is absorbed into the rendering).  The `os.Exit` and
slice-panic paths inside `vendoredImportPath` surface as `none`.
`gobin`/`BinDir` is omitted: nothing in the program reads it back. -/
def loadImportModel
    (skip : List (String → Bool)) (isDir : String → Bool) (cleanF : String → String)
    (cwd : String)
    (importFn : String → String → BuildPackage × Option String)
    (loadDepsFn : Package → List String → Option String → Package)
    (cache : List (String × Package))
    (path srcDir : String) (parent : Option ParentInfo) (stk : List String)
    (importPos : List String) : Option (Package × List (String × Package)) :=
  let stk1 := stk ++ [path]
  match vendoredImportPath skip isDir cleanF cwd parent path with
  | none => none
  | some (path1, vendorSearch) =>
      let importPath := path1
      match cacheLookup cache importPath with
      | some p =>
          let p1 := reusePackage p stk1
          some (p1, mapInsert importPath p1 cache)
      | none =>
          let r := importFn path1 srcDir
          let err1 := adjustVendorErr r.2 vendorSearch
          let bp := { r.1 with ImportPath := importPath }
          let err2 :=
            if err1 = none ∧ bp.ImportComment ≠ "" ∧ bp.ImportComment ≠ path1 ∧
                strContains path1 "/vendor/" = false then
              some ("code in directory " ++ bp.Dir ++ " expects import " ++
                quoteGo bp.ImportComment)
            else err1
          let p := copyBuild bp
          if p.Standard then some (p, mapInsert importPath p cache)
          else
            let p1 := loadDepsFn p stk1 err2
            let p2 :=
              match p1.Error, importPos with
              | some e, pos0 :: _ => p1.withError (some { e with Pos := pos0 })
              | _, _ => p1
            some (p2, mapInsert importPath p2 cache)

/-! ## Concrete fixtures used by witnesses and counterexamples -/

/-- bpBase is the zero value of `build.Package` restricted to the
modelled fields. -/
def bpBase : BuildPackage :=
  { Name := "", Dir := "", Root := "", ImportPath := "", Goroot := false, ImportComment := "",
    Imports := [], TestImports := [], XTestImports := [], GoFiles := [], CgoFiles := [],
    IgnoredGoFiles := [], CFiles := [], CXXFiles := [], MFiles := [], HFiles := [],
    SFiles := [], SysoFiles := [], SwigFiles := [], SwigCXXFiles := [], TestGoFiles := [],
    XTestGoFiles := [], ImportPos := [] }

/-- asciiFold is a concrete stand-in for `unicode.SimpleFold` on the
basic Latin letters (each letter's fold orbit is its two cases), used to
instantiate the `sf` parameter in witnesses. -/
def asciiFold (c : Char) : Char :=
  if 'A' ≤ c ∧ c ≤ 'Z' then Char.ofNat (c.toNat + 32)
  else if 'a' ≤ c ∧ c ≤ 'z' then Char.ofNat (c.toNat - 32)
  else c

/-- c1StillLoading is a package freshly inserted into the cache and not
yet finished loading: `loadedDeps` unset, no error. -/
def c1StillLoading : Package := .mk { bpBase with ImportPath := "p" } false none false []

/-- c1Finished is a package whose loading completed: `loadedDeps` set,
no error. -/
def c1Finished : Package := .mk { bpBase with ImportPath := "d" } false none true []

/-- c2Dep is a dependency living outside the working directory. -/
def c2Dep : Package := .mk { bpBase with ImportPath := "d", Dir := "/ext/d" } false none true []

/-- c2Root1 and c2Root2 are two roots inside `/cwd` sharing `c2Dep`. -/
def c2Root1 : Package := .mk { bpBase with ImportPath := "p1", Dir := "/cwd/p1" } false none true [c2Dep]

def c2Root2 : Package := .mk { bpBase with ImportPath := "p2", Dir := "/cwd/p2" } false none true [c2Dep]

/-- c5Err is a non-cycle load error with stored stack `["a", "b"]`. -/
def c5Err : PackageError := mkLoadErr ["a", "b"] "metadata load failure"

/-- c5Pkg is a cached package carrying `c5Err`. -/
def c5Pkg : Package := .mk { bpBase with ImportPath := "q" } false (some c5Err) true []

/-- c7Pkg has two source files that clash under case folding and one import,
so the collision must win before the import is considered. -/
def c7Pkg : Package :=
  .mk { bpBase with ImportPath := "p", GoFiles := ["Foo.ext", "foo.ext"], Imports := ["q"] }
    false none false []

/-- c7Oracle is a loader oracle returning a clean non-standard package
for every path. -/
def c7Oracle : String → Package := fun path =>
  .mk { bpBase with ImportPath := path, Name := "x" } false none true []

/-- c9Bp is a build record of a package living inside the Go root. -/
def c9Bp : BuildPackage := { bpBase with Goroot := true, Dir := "/goroot/src/fmt" }

/-- c9ImportFn is a metadata loader returning `c9Bp` unconditionally. -/
def c9ImportFn : String → String → BuildPackage × Option String := fun _ _ => (c9Bp, none)

/-- c9StdPkg is the standard-library package produced for path `fmt`. -/
def c9StdPkg : Package := copyBuild { c9Bp with ImportPath := "fmt" }

/-- c3IsDir answers true on the nested vendor trees `a/vendor/d` and
`a/b/vendor/d` of the closest-vendor-wins scenario. -/
def c3IsDir : String → Bool := fun s =>
  s == "/g/src/a/vendor" || s == "/g/src/a/vendor/d" ||
    s == "/g/src/a/b/vendor" || s == "/g/src/a/b/vendor/d"

/-- c3Par is a parent package at `a/b` under root `/g`. -/
def c3Par : ParentInfo := { Dir := "/g/src/a/b", Root := "/g", ImportPath := "a/b" }

/-- c6IsDir answers true on the vendor copy `p/vendor/d`. -/
def c6IsDir : String → Bool := fun s =>
  s == "/g/src/p/vendor" || s == "/g/src/p/vendor/d"

/-- c6Par is a parent package at `p` under root `/g`. -/
def c6Par : ParentInfo := { Dir := "/g/src/p", Root := "/g", ImportPath := "p" }

/-- c4Pkg has a local-style first import and a clean second import. -/
def c4Pkg : Package :=
  .mk { bpBase with ImportPath := "p", Imports := ["./x", "good"] } false none false []

/-- c4OracleGood resolves every path to a clean non-standard package. -/
def c4OracleGood : String → Package := fun path =>
  .mk { bpBase with ImportPath := path, Name := "x", Dir := "/ext" } false none true []

/-- c4OracleErr resolves every path to a package carrying a load error. -/
def c4OracleErr : String → Package := fun path =>
  .mk { bpBase with ImportPath := path, Name := "x" } false
    (some (mkLoadErr ["p", path] "cannot load")) false []

/-- c4PkgB has a failing first import and a clean second import. -/
def c4PkgB : Package :=
  .mk { bpBase with ImportPath := "p", Imports := ["bad", "good"] } false none false []

/-- c4Mixed resolves `bad` to a package with a load error and anything
else cleanly. -/
def c4Mixed : String → Package := fun path =>
  if path == "bad" then
    .mk { bpBase with ImportPath := "bad", Name := "x" } false
      (some (mkLoadErr ["p", "bad"] "boom")) false []
  else .mk { bpBase with ImportPath := path, Name := "x" } false none true []

/-- c8Pkg imports two packages whose paths fold to the same string. -/
def c8Pkg : Package :=
  .mk { bpBase with ImportPath := "p", Imports := ["A", "a"] } false none false []

/-- c8OracleErr resolves `A` cleanly and `a` with a load error. -/
def c8OracleErr : String → Package := fun path =>
  if path == "A" then .mk { bpBase with ImportPath := "A", Name := "x" } false none true []
  else
    .mk { bpBase with ImportPath := "a", Name := "x" } false
      (some (mkLoadErr ["p", "a"] "boom")) false []

/-- c8OracleOk resolves every path cleanly. -/
def c8OracleOk : String → Package := fun path =>
  .mk { bpBase with ImportPath := path, Name := "x" } false none true []

/-! ## Theorems: order lemmas for the byte-wise string comparison -/

theorem strLtb_asymm : ∀ {a b : List Char}, strLtb a b = true → strLtb b a = false
  | [], [], h => by simp [strLtb] at h
  | [], _ :: _, _ => by simp [strLtb]
  | _ :: _, [], h => by simp [strLtb] at h
  | a :: as, b :: bs, h => by
      by_cases hab : a = b
      · subst hab
        simp only [strLtb, if_pos rfl] at h ⊢
        exact strLtb_asymm h
      · simp only [strLtb, if_neg hab, decide_eq_true_eq] at h
        have hba : ¬b = a := fun hh => hab hh.symm
        simp only [strLtb, if_neg hba, decide_eq_false_iff_not]
        exact lt_asymm h

theorem strLtb_connex :
    ∀ {c a : List Char}, strLtb c a = true →
      ∀ (b : List Char), strLtb c b = true ∨ strLtb b a = true
  | [], [], h, _ => by simp [strLtb] at h
  | [], _ :: _, _, b => by
      cases b with
      | nil => exact Or.inr (by simp [strLtb])
      | cons z zs => exact Or.inl (by simp [strLtb])
  | _ :: _, [], h, _ => by simp [strLtb] at h
  | x :: xs, y :: ys, h, b => by
      cases b with
      | nil => exact Or.inr (by simp [strLtb])
      | cons z zs =>
          by_cases hxy : x = y
          · subst hxy
            simp only [strLtb, if_pos rfl] at h
            by_cases hzx : z = x
            · subst hzx
              rcases strLtb_connex h zs with h1 | h1
              · exact Or.inl (by simpa [strLtb] using h1)
              · exact Or.inr (by simpa [strLtb] using h1)
            · have hxz : ¬x = z := fun hh => hzx hh.symm
              rcases lt_or_gt_of_ne (fun hh : x = z => hzx hh.symm) with hlt | hgt
              · exact Or.inl (by simp [strLtb, if_neg hxz, hlt])
              · exact Or.inr (by simp [strLtb, if_neg hzx, hgt])
          · simp only [strLtb, if_neg hxy, decide_eq_true_eq] at h
            by_cases hzx : z = x
            · subst hzx
              have : ¬z = y := hxy
              exact Or.inr (by simp [strLtb, if_neg this, h])
            · by_cases hzy : z = y
              · subst hzy
                have hxz : ¬x = z := fun hh => hzx hh.symm
                exact Or.inl (by simp [strLtb, if_neg hxz, h])
              · rcases lt_or_gt_of_ne (fun hh : x = z => hzx hh.symm) with hlt | hgt
                · have hxz : ¬x = z := fun hh => hzx hh.symm
                  exact Or.inl (by simp [strLtb, if_neg hxz, hlt])
                · have : z < y := lt_trans hgt h
                  exact Or.inr (by simp [strLtb, if_neg hzy, this])

theorem strLe_iff {s t : String} : strLe s t = true ↔ strLtb t.toList s.toList = false := by
  unfold strLe
  cases h : strLtb t.toList s.toList
  · simp
  · simp

theorem strLe_total (s t : String) : strLe s t = true ∨ strLe t s = true := by
  by_cases h : strLtb t.toList s.toList = true
  · exact Or.inr (strLe_iff.mpr (strLtb_asymm h))
  · exact Or.inl (strLe_iff.mpr (Bool.eq_false_iff.mpr h))

theorem strLe_trans {s t u : String} (h1 : strLe s t = true) (h2 : strLe t u = true) :
    strLe s u = true := by
  rw [strLe_iff] at h1 h2 ⊢
  rcases Bool.eq_false_or_eq_true (strLtb u.toList s.toList) with h | h
  · rcases strLtb_connex h t.toList with h3 | h3
    · rw [h2] at h3; exact absurd h3 (by decide)
    · rw [h1] at h3; exact absurd h3 (by decide)
  · exact h

/-! ## Theorems: Package field updates -/

@[simp] theorem Package.error_withError (p : Package) (e : Option PackageError) :
    (p.withError e).Error = e := by cases p; rfl

@[simp] theorem Package.build_withError (p : Package) (e : Option PackageError) :
    (p.withError e).build = p.build := by cases p; rfl

@[simp] theorem Package.loadedDeps_withError (p : Package) (e : Option PackageError) :
    (p.withError e).loadedDeps = p.loadedDeps := by cases p; rfl

@[simp] theorem Package.deps_withError (p : Package) (e : Option PackageError) :
    (p.withError e).deps = p.deps := by cases p; rfl

@[simp] theorem Package.standard_withError (p : Package) (e : Option PackageError) :
    (p.withError e).Standard = p.Standard := by cases p; rfl

/-! ## Theorems: lexicographic characterization of the string order -/

theorem strLtb_iff_lex : ∀ (l1 l2 : List Char), strLtb l1 l2 = true ↔ List.Lex (· < ·) l1 l2
  | [], [] => by
      constructor
      · intro h; simp [strLtb] at h
      · intro h; cases h
  | [], _ :: _ => ⟨fun _ => List.Lex.nil, fun _ => rfl⟩
  | _ :: _, [] => by
      constructor
      · intro h; simp [strLtb] at h
      · intro h; cases h
  | a :: as, b :: bs => by
      by_cases hab : a = b
      · subst hab
        simp only [strLtb, if_pos rfl]
        constructor
        · intro h; exact List.Lex.cons ((strLtb_iff_lex as bs).mp h)
        · intro h
          cases h with
          | cons h2 => exact (strLtb_iff_lex as bs).mpr h2
          | rel h2 => exact absurd h2 (lt_irrefl a)
      · simp only [strLtb, if_neg hab, decide_eq_true_eq]
        constructor
        · intro h; exact List.Lex.rel h
        · intro h
          cases h with
          | cons h2 => exact absurd rfl hab
          | rel h2 => exact h2

theorem strLt_iff_lt (a b : String) : strLt a b = true ↔ a < b := by
  rw [String.lt_iff_toList_lt]
  exact strLtb_iff_lex a.toList b.toList

theorem shorterTie_iff_lex : ∀ (s t : List String), s.length = t.length →
    (shorterTie s t = true ↔ List.Lex (· < ·) s t)
  | [], [], _ => by
      constructor
      · intro h; simp [shorterTie] at h
      · intro h; cases h
  | [], _ :: _, hlen => by simp at hlen
  | _ :: _, [], hlen => by simp at hlen
  | a :: as, b :: bs, hlen => by
      have hlen' : as.length = bs.length := by simpa using hlen
      by_cases hab : a = b
      · subst hab
        simp only [shorterTie, if_neg (by simp : ¬a ≠ a)]
        constructor
        · intro h; exact List.Lex.cons ((shorterTie_iff_lex as bs hlen').mp h)
        · intro h
          cases h with
          | cons h2 => exact (shorterTie_iff_lex as bs hlen').mpr h2
          | rel h2 => exact absurd h2 (lt_irrefl a)
      · simp only [shorterTie, if_pos hab]
        rw [strLt_iff_lt]
        constructor
        · exact List.Lex.rel
        · intro h
          cases h with
          | cons h2 => exact absurd rfl hab
          | rel h2 => exact h2

theorem shorterThan_iff_shortlex (s t : List String) :
    shorterThan s t = true ↔
      s.length < t.length ∨ (s.length = t.length ∧ List.Lex (· < ·) s t) := by
  unfold shorterThan
  by_cases hlen : s.length = t.length
  · rw [if_neg (not_not_intro hlen), shorterTie_iff_lex s t hlen]
    constructor
    · exact fun h => Or.inr ⟨hlen, h⟩
    · rintro (h | ⟨_, h⟩)
      · omega
      · exact h
  · rw [if_pos hlen]
    simp only [decide_eq_true_eq]
    constructor
    · exact Or.inl
    · rintro (h | ⟨h1, _⟩)
      · exact h
      · exact absurd h1 hlen

/-! ## Theorems: reusePackage -/

theorem attachCycleIfLoaded_of_error (p : Package) (stk : List String) (e : PackageError)
    (he : p.Error = some e) : attachCycleIfLoaded p stk = p := by
  unfold attachCycleIfLoaded
  rw [he]
  exact ite_self p

theorem refreshShorterStack_of_error (p : Package) (stk : List String) (e : PackageError)
    (he : p.Error = some e) :
    refreshShorterStack p stk =
      if ¬e.isImportCycle ∧ shorterThan stk e.ImportStack then
        p.withError (some { e with ImportStack := stk })
      else p := by
  unfold refreshShorterStack
  rw [he]

/-- C1: the claim states that a package found in the cache while still
marked loading gets the import-cycle error attached, and that no cycle
error is attached when reusing a package that finished loading.  The
code tests `p.loadedDeps` with the opposite polarity (its own comment
says the recursion happens before `loadedDeps` gets set), so at the
failing inputs the still-loading package keeps no error while the
finished package acquires the cycle error. -/
theorem c1_reuse_cycle_flag_inverted :
    (reusePackage c1StillLoading ["p", "q", "p"]).Error = none ∧
    (reusePackage c1Finished ["p", "r", "d"]).Error = some (cycleError ["p", "r", "d"]) :=
  ⟨rfl, rfl⟩

/-- C5: a cached package carrying a non-cycle error has its stored stack
replaced exactly when the current stack is strictly smaller in the
shortlex order (shorter length wins, ties broken by elementwise
lexicographic string comparison), and an import-cycle error is never
overwritten nor its stack rewritten by a non-cycle encounter. -/
theorem c5_shortest_stack_update (p : Package) (stk : List String) (e : PackageError)
    (he : p.Error = some e) :
    (e.isImportCycle = false →
      (reusePackage p stk).Error =
        some { e with ImportStack :=
          if shorterThan stk e.ImportStack then stk else e.ImportStack } ∧
      (shorterThan stk e.ImportStack = true ↔
        stk.length < e.ImportStack.length ∨
          (stk.length = e.ImportStack.length ∧ List.Lex (· < ·) stk e.ImportStack))) ∧
    (e.isImportCycle = true → reusePackage p stk = p) := by
  have hre : reusePackage p stk = refreshShorterStack p stk := by
    unfold reusePackage
    rw [attachCycleIfLoaded_of_error p stk e he]
  constructor
  · intro hcyc
    refine ⟨?_, shorterThan_iff_shortlex stk e.ImportStack⟩
    rw [hre, refreshShorterStack_of_error p stk e he]
    by_cases hs : shorterThan stk e.ImportStack = true
    · simp [hcyc, hs]
    · have hs' : shorterThan stk e.ImportStack = false := Bool.eq_false_iff.mpr hs
      simp [hs', he]
  · intro hcyc
    rw [hre, refreshShorterStack_of_error p stk e he]
    simp [hcyc]

/-- c5_witness applies C5 to `c5Pkg` (non-cycle error with stored stack
`["a", "b"]`) and the strictly shorter current stack `["z"]`. -/
theorem c5_witness :
    (reusePackage c5Pkg ["z"]).Error = some { c5Err with ImportStack := ["z"] } :=
  ((c5_shortest_stack_update c5Pkg ["z"] c5Err rfl).1 rfl).1

/-! ## Theorems: the dependency aggregate (claim C2) -/

/-- C2 (counterexample): the claim asserts the aggregated dependency
list is free of duplicates by resolved import path even when multiple
roots share a dependency; with two roots in `/cwd` sharing the external
dependency `d`, the code's `dependencies` lists `d` twice. -/
theorem c2_duplicates_counterexample :
    (dependencies "/cwd" [c2Root1, c2Root2]).map Package.ImportPath = ["d", "d"] ∧
    ¬((dependencies "/cwd" [c2Root1, c2Root2]).map Package.ImportPath).Nodup := by
  constructor
  · decide
  · decide

/-- C2 (amended): the aggregated list is sorted ascending by resolved import
path and consists of exactly the root dependencies whose source
directory is not under the working directory — one occurrence per
contributing root, with no deduplication. -/
theorem c2_aggregate_sorted_filtered (cwd : String) (pkgs : List Package) :
    List.Sorted depLe (dependencies cwd pkgs) ∧
    (dependencies cwd pkgs).Perm
      ((pkgs.map fun p => p.deps.filter fun d => !inCWD cwd d.Dir).flatten) ∧
    ∀ d : Package, d ∈ dependencies cwd pkgs ↔
      ∃ p ∈ pkgs, d ∈ p.deps ∧ inCWD cwd d.Dir = false := by
  have hperm := List.perm_insertionSort depLe
    ((pkgs.map fun p => p.deps.filter fun d => !inCWD cwd d.Dir).flatten)
  refine ⟨?_, hperm, ?_⟩
  · haveI : IsTotal Package depLe := ⟨fun a b => strLe_total a.ImportPath b.ImportPath⟩
    haveI : IsTrans Package depLe := ⟨fun _ _ _ => strLe_trans⟩
    exact List.sorted_insertionSort depLe _
  · intro d
    rw [show dependencies cwd pkgs = List.insertionSort depLe
      ((pkgs.map fun p => p.deps.filter fun d => !inCWD cwd d.Dir).flatten) from rfl,
      (List.perm_insertionSort depLe _).mem_iff]
    simp only [List.mem_flatten, List.mem_map]
    constructor
    · rintro ⟨l, ⟨p, hp, rfl⟩, hd⟩
      rw [List.mem_filter] at hd
      exact ⟨p, hp, hd.1, by simpa using hd.2⟩
    · rintro ⟨p, hp, hd, hcwd⟩
      exact ⟨_, ⟨p, hp, rfl⟩, List.mem_filter.mpr ⟨hd, by simp [hcwd]⟩⟩

/-! ## Theorems: file-name collision short-circuit (claim C7) -/

/-- C7: a package whose own source-file list has a case-fold collision
(as detected by `foldDup` over the thirteen concatenated file lists)
gets the collision error recorded before any import is loaded: the
result does not depend on the loader oracle at all, the dependency list
stays untouched and `loadedDeps` stays unset. -/
theorem c7_file_collision_short_circuit (sf : Char → Char) (f : String → Package)
    (p : Package) (stk : List String)
    (hcol : (foldDup sf (allSourceFiles p.build)).1 ≠ "") :
    loadDeps sf f p stk none =
      p.withError (some (mkLoadErr stk
        ("case-insensitive file name collision: " ++
          quoteGo (foldDup sf (allSourceFiles p.build)).1 ++ " and " ++
          quoteGo (foldDup sf (allSourceFiles p.build)).2))) ∧
    (loadDeps sf f p stk none).deps = p.deps ∧
    (loadDeps sf f p stk none).loadedDeps = p.loadedDeps ∧
    ∀ g : String → Package, loadDeps sf f p stk none = loadDeps sf g p stk none := by
  have key : ∀ h : String → Package, loadDeps sf h p stk none =
      p.withError (some (mkLoadErr stk
        ("case-insensitive file name collision: " ++
          quoteGo (foldDup sf (allSourceFiles p.build)).1 ++ " and " ++
          quoteGo (foldDup sf (allSourceFiles p.build)).2))) := by
    intro h
    unfold loadDeps
    rw [if_pos hcol]
  refine ⟨key f, ?_, ?_, fun g => (key f).trans (key g).symm⟩
  · rw [key f]; simp
  · rw [key f]; simp

/-- c7_witness applies C7 to the concrete package with files `Foo.ext`
and `foo.ext` and one import. -/
theorem c7_witness :
    loadDeps asciiFold c7Oracle c7Pkg ["p"] none =
      c7Pkg.withError (some (mkLoadErr ["p"]
        ("case-insensitive file name collision: " ++ quoteGo "Foo.ext" ++ " and " ++
          quoteGo "foo.ext"))) :=
  (c7_file_collision_short_circuit asciiFold c7Oracle c7Pkg ["p"] (by decide)).1

/-! ## Theorems: Package accessors on the constructor -/

@[simp] theorem Package.standard_mk (b : BuildPackage) (S : Bool) (E : Option PackageError)
    (l : Bool) (d : List Package) : (Package.mk b S E l d).Standard = S := rfl

@[simp] theorem Package.error_mk (b : BuildPackage) (S : Bool) (E : Option PackageError)
    (l : Bool) (d : List Package) : (Package.mk b S E l d).Error = E := rfl

@[simp] theorem Package.loadedDeps_mk (b : BuildPackage) (S : Bool) (E : Option PackageError)
    (l : Bool) (d : List Package) : (Package.mk b S E l d).loadedDeps = l := rfl

@[simp] theorem Package.deps_mk (b : BuildPackage) (S : Bool) (E : Option PackageError)
    (l : Bool) (d : List Package) : (Package.mk b S E l d).deps = d := rfl

@[simp] theorem Package.build_mk (b : BuildPackage) (S : Bool) (E : Option PackageError)
    (l : Bool) (d : List Package) : (Package.mk b S E l d).build = b := rfl

/-! ## Theorems: the seen test of the copier (claim C10) -/

theorem snoc_prefix_iff {l1 l2 : List Char} {c : Char} (hlt : l1.length < l2.length) :
    List.IsPrefix (l1 ++ [c]) l2 ↔
      l2.take l1.length = l1 ∧ l2.getD l1.length ' ' = c := by
  rw [List.prefix_iff_eq_take, List.length_append, List.length_singleton, List.take_succ,
    List.getElem?_eq_getElem hlt]
  simp only [Option.toList_some]
  constructor
  · intro h
    obtain ⟨h1, h2⟩ := List.append_inj h (by rw [List.length_take]; omega)
    have hc : c = l2[l1.length] := by simpa using h2
    refine ⟨h1.symm, ?_⟩
    rw [List.getD_eq_getElem l2 ' ' hlt, ← hc]
  · rintro ⟨h1, h2⟩
    rw [List.getD_eq_getElem l2 ' ' hlt] at h2
    rw [h1, h2]

theorem hasPathPfx_iff (s pre : String) (hend : pre.toList.getLast? ≠ some '/') :
    hasPathPfx s pre = true ↔
      s = pre ∨ List.IsPrefix (pre.toList ++ ['/']) s.toList := by
  have hsl : s.length = s.toList.length := rfl
  have hpl : pre.length = pre.toList.length := rfl
  unfold hasPathPfx
  by_cases hlen : s.length = pre.length
  · rw [if_pos hlen, beq_iff_eq]
    constructor
    · exact Or.inl
    · rintro (h | h)
      · exact h
      · have hle := h.length_le
        rw [List.length_append, List.length_singleton, ← hsl, ← hpl] at hle
        omega
  · rw [if_neg hlen]
    by_cases hlt : pre.length < s.length
    · rw [if_pos hlt]
      have hc0 : (decide (pre ≠ "") && (pre.toList.getLast? == some '/')) = false := by
        have hb : (pre.toList.getLast? == some '/') = false := beq_eq_false_iff_ne.mpr hend
        rw [hb, Bool.and_false]
      simp only [hc0, Bool.false_eq_true, if_false]
      rw [Bool.and_eq_true, beq_iff_eq, decide_eq_true_eq]
      have hne : ¬s = pre := fun hh => hlen (by rw [hh])
      rw [@snoc_prefix_iff pre.toList s.toList '/' hlt]
      constructor
      · rintro ⟨h1, h2⟩
        exact Or.inr ⟨h2, h1⟩
      · rintro (hh | ⟨h1, h2⟩)
        · exact absurd hh hne
        · exact ⟨h2, h1⟩
    · rw [if_neg hlt]
      constructor
      · intro hh
        exact absurd hh (by simp)
      · rintro (hh | hh)
        · exact absurd (congrArg String.length hh) hlen
        · have hle := hh.length_le
          rw [List.length_append, List.length_singleton, ← hsl, ← hpl] at hle
          omega

/-- C10: the copier's seen test matches only at path-segment boundaries:
for import paths (which do not end in a separator) the candidate `s` is
covered by an already-materialized `p` exactly when `s` equals `p` or
`s` extends `p` with a `'/'` right after it — so "foo" covers "foo/bar"
but never "foobar". -/
theorem c10_seen_segment_boundary (pkg : Package) (seen : List String)
    (h : ∀ pre ∈ seen, pre.toList.getLast? ≠ some '/') :
    isSeen pkg seen = true ↔
      ∃ pre ∈ seen, pkg.ImportPath = pre ∨
        List.IsPrefix (pre.toList ++ ['/']) pkg.ImportPath.toList := by
  unfold isSeen
  rw [List.any_eq_true]
  constructor
  · rintro ⟨pre, hmem, hp⟩
    exact ⟨pre, hmem, (hasPathPfx_iff _ _ (h pre hmem)).mp hp⟩
  · rintro ⟨pre, hmem, hp⟩
    exact ⟨pre, hmem, (hasPathPfx_iff _ _ (h pre hmem)).mpr hp⟩

/-- c10_witness applies C10 with seen entry "foo": it covers "foo/bar". -/
theorem c10_witness :
    isSeen (Package.mk { bpBase with ImportPath := "foo/bar" } false none true []) ["foo"]
      = true :=
  (c10_seen_segment_boundary _ ["foo"] (by decide)).mpr
    ⟨"foo", by decide, Or.inr (by decide)⟩

/-! ## Theorems: the standard-library flag (claim C9) -/

theorem strContains_singleton_iff (s : String) (c : Char) :
    strContains s (String.mk [c]) = true ↔ c ∈ s.toList := by
  unfold strContains
  rw [List.any_eq_true]
  constructor
  · rintro ⟨i, _, hp⟩
    rw [List.isPrefixOf_iff_prefix] at hp
    have hc : c ∈ s.toList.drop i := hp.subset (List.mem_singleton_self c)
    exact List.drop_subset i s.toList hc
  · intro hc
    obtain ⟨t1, t2, ht⟩ := List.append_of_mem hc
    refine ⟨t1.length, ?_, ?_⟩
    · rw [List.mem_range]
      have hsl : s.length = s.toList.length := rfl
      have hlen : s.toList.length = t1.length + (t2.length + 1) := by
        rw [ht, List.length_append, List.length_cons]
      omega
    · rw [List.isPrefixOf_iff_prefix, ht, List.drop_left]
      exact ⟨t2, rfl⟩

/-- C9: the `Standard` flag of a freshly loaded package is set exactly
when the build record has `Goroot` set, a nonempty import path, and no
`'.'` anywhere in the import path; and `loadImport` returns a package so
flagged immediately — without consulting `loadDeps` at all — with an
empty dependency list and `loadedDeps` unset. -/
theorem c9_standard_flag_and_early_return :
    (∀ bp : BuildPackage,
      (copyBuild bp).Standard = true ↔
        bp.Goroot = true ∧ bp.ImportPath ≠ "" ∧ '.' ∉ bp.ImportPath.toList) ∧
    (∀ (skip : List (String → Bool)) (isDir : String → Bool) (cleanF : String → String)
      (cwd : String) (importFn : String → String → BuildPackage × Option String)
      (cache : List (String × Package)) (path srcDir : String) (parent : Option ParentInfo)
      (stk : List String) (importPos : List String) (path1 : String) (vsearch : List String),
      vendoredImportPath skip isDir cleanF cwd parent path = some (path1, vsearch) →
      cacheLookup cache path1 = none →
      (copyBuild { (importFn path1 srcDir).1 with ImportPath := path1 }).Standard = true →
      ∀ ldf ldf2 : Package → List String → Option String → Package,
        loadImportModel skip isDir cleanF cwd importFn ldf cache path srcDir parent stk
            importPos =
          some (copyBuild { (importFn path1 srcDir).1 with ImportPath := path1 },
            mapInsert path1
              (copyBuild { (importFn path1 srcDir).1 with ImportPath := path1 }) cache) ∧
        (copyBuild { (importFn path1 srcDir).1 with ImportPath := path1 }).deps = [] ∧
        (copyBuild { (importFn path1 srcDir).1 with ImportPath := path1 }).loadedDeps = false ∧
        loadImportModel skip isDir cleanF cwd importFn ldf cache path srcDir parent stk
            importPos =
          loadImportModel skip isDir cleanF cwd importFn ldf2 cache path srcDir parent stk
            importPos) := by
  constructor
  · intro bp
    show (bp.Goroot && bp.ImportPath != "" && !strContains bp.ImportPath ".") = true ↔ _
    rw [Bool.and_eq_true, Bool.and_eq_true, Bool.not_eq_true', bne_iff_ne]
    constructor
    · rintro ⟨⟨h1, h2⟩, h3⟩
      refine ⟨h1, h2, fun hmem => ?_⟩
      have : strContains bp.ImportPath (String.mk ['.']) = true :=
        (strContains_singleton_iff bp.ImportPath '.').mpr hmem
      rw [show String.mk ['.'] = "." from rfl] at this
      rw [this] at h3
      exact absurd h3 (by decide)
    · rintro ⟨h1, h2, h3⟩
      refine ⟨⟨h1, h2⟩, ?_⟩
      cases hsc : strContains bp.ImportPath "."
      · rfl
      · exfalso
        apply h3
        have := (strContains_singleton_iff bp.ImportPath '.').mp
        rw [show String.mk ['.'] = "." from rfl] at this
        exact this hsc
  · intro skip isDir cleanF cwd importFn cache path srcDir parent stk importPos path1 vsearch
      hv hcache hstd ldf ldf2
    have key : ∀ l : Package → List String → Option String → Package,
        loadImportModel skip isDir cleanF cwd importFn l cache path srcDir parent stk
            importPos =
          some (copyBuild { (importFn path1 srcDir).1 with ImportPath := path1 },
            mapInsert path1
              (copyBuild { (importFn path1 srcDir).1 with ImportPath := path1 }) cache) := by
      intro l
      unfold loadImportModel
      rw [hv]
      simp only [hcache]
      rw [if_pos hstd]
    exact ⟨key ldf, rfl, rfl, (key ldf).trans (key ldf2).symm⟩

/-! ## Theorems: the vendor-path walk (claims C3 and C6) -/

theorem vipStep_found (isDir : String → Bool) (dirL : List Char) (ip vpath : String)
    (i : Nat) (searched : List String)
    (hc : stepCand isDir dirL vpath i) :
    vipStep isDir dirL ip vpath i searched =
      .inr (vipFound ip vpath (dirL.length - i)) := by
  obtain ⟨h1, h2, h3⟩ := hc
  unfold vipStep
  rw [if_neg h1, if_neg (not_not_intro h2), if_pos h3]

theorem vipStep_continue (isDir : String → Bool) (dirL : List Char) (ip vpath : String)
    (i : Nat) (searched : List String)
    (hc : ¬stepCand isDir dirL vpath i) :
    vipStep isDir dirL ip vpath i searched =
      .inl (searched ++ searchedHit isDir dirL vpath i) := by
  unfold vipStep searchedHit
  by_cases h1 : i < dirL.length ∧ ¬dirL.getD i ' ' = '/'
  · rw [if_pos h1, if_neg (fun hh => hh.1 h1), List.append_nil]
  · rw [if_neg h1]
    by_cases h2 : isDir (joinP (String.mk (dirL.take i)) "vendor") = true
    · rw [if_neg (not_not_intro h2)]
      by_cases h3 : isDir (joinP (String.mk (dirL.take i)) vpath) = true
      · exact absurd ⟨h1, h2, h3⟩ hc
      · have h3' : isDir (joinP (String.mk (dirL.take i)) vpath) = false :=
          Bool.eq_false_iff.mpr h3
        rw [if_neg h3, if_pos ⟨h1, h2, h3'⟩]
    · rw [if_pos h2, if_neg (fun hh => h2 hh.2.1), List.append_nil]

theorem vipLoop_found (isDir : String → Bool) (dirL : List Char) (rootLen : Nat)
    (ip vpath path : String) :
    ∀ (i : Nat) (searched : List String) (j : Nat), rootLen ≤ j → j ≤ i →
      stepCand isDir dirL vpath j →
      (∀ k, j < k → k ≤ i → ¬stepCand isDir dirL vpath k) →
      vipLoop isDir dirL rootLen ip vpath path i searched =
        vipFound ip vpath (dirL.length - j)
  | 0, searched, j, hrj, hj0, hcand, _ => by
      have hj : j = 0 := Nat.le_zero.mp hj0
      subst hj
      unfold vipLoop
      rw [if_neg (by omega : ¬0 < rootLen)]
      rw [vipStep_found isDir dirL ip vpath 0 searched hcand]
  | i + 1, searched, j, hrj, hji, hcand, hmax => by
      unfold vipLoop
      by_cases hj : j = i + 1
      · subst hj
        rw [if_neg (by omega : ¬i + 1 < rootLen)]
        rw [vipStep_found isDir dirL ip vpath (i + 1) searched hcand]
      · have hji' : j ≤ i := by omega
        rw [if_neg (by omega : ¬i + 1 < rootLen)]
        have hni : ¬stepCand isDir dirL vpath (i + 1) := hmax (i + 1) (by omega) (le_refl _)
        rw [vipStep_continue isDir dirL ip vpath (i + 1) searched hni]
        exact vipLoop_found isDir dirL rootLen ip vpath path i _ j hrj hji' hcand
          (fun k hk1 hk2 => hmax k hk1 (by omega))

theorem searchedFrom_succ (isDir : String → Bool) (dirL : List Char) (rootLen : Nat)
    (vpath : String) (i : Nat) (hr : ¬i + 1 < rootLen) :
    searchedFrom isDir dirL rootLen vpath (i + 1) =
      searchedHit isDir dirL vpath (i + 1) ++ searchedFrom isDir dirL rootLen vpath i := by
  rw [searchedFrom, if_neg hr]

theorem vipLoop_notfound (isDir : String → Bool) (dirL : List Char) (rootLen : Nat)
    (ip vpath path : String) :
    ∀ (i : Nat) (searched : List String),
      (∀ k, rootLen ≤ k → k ≤ i → ¬stepCand isDir dirL vpath k) →
      vipLoop isDir dirL rootLen ip vpath path i searched =
        some (path, searched ++ searchedFrom isDir dirL rootLen vpath i)
  | 0, searched, hnone => by
      unfold vipLoop searchedFrom
      by_cases hr : 0 < rootLen
      · rw [if_pos hr, if_pos hr, List.append_nil]
      · rw [if_neg hr, if_neg hr]
        rw [vipStep_continue isDir dirL ip vpath 0 searched (hnone 0 (by omega) (le_refl 0))]
  | i + 1, searched, hnone => by
      unfold vipLoop
      by_cases hr : i + 1 < rootLen
      · rw [if_pos hr]
        unfold searchedFrom
        rw [if_pos hr, List.append_nil]
      · rw [if_neg hr]
        rw [vipStep_continue isDir dirL ip vpath (i + 1) searched
          (hnone (i + 1) (by omega) (le_refl _))]
        show vipLoop isDir dirL rootLen ip vpath path i
            (searched ++ searchedHit isDir dirL vpath (i + 1)) =
          some (path, searched ++ searchedFrom isDir dirL rootLen vpath (i + 1))
        rw [vipLoop_notfound isDir dirL rootLen ip vpath path i
          (searched ++ searchedHit isDir dirL vpath (i + 1))
          (fun k h1 h2 => hnone k h1 (by omega))]
        rw [searchedFrom_succ isDir dirL rootLen vpath i hr, List.append_assoc]

theorem vendoredImportPath_eq_loop (skip : List (String → Bool)) (isDir : String → Bool)
    (cleanF : String → String) (cwd : String) (par : ParentInfo) (path : String)
    (hskip : skip.any (fun m => m path) = false)
    (hpre : (cleanF par.Root).toList.isPrefixOf (cleanF par.Dir).toList = true)
    (hlen : (cleanF par.Root).length < (cleanF par.Dir).length)
    (hsep : (cleanF par.Dir).toList.getD (cleanF par.Root).length ' ' = '/')
    (hcwd : inCWD cwd (cleanF par.Dir) = true) :
    vendoredImportPath skip isDir cleanF cwd (some par) path =
      vipLoop isDir (cleanF par.Dir).toList (cleanF par.Root).length par.ImportPath
        ("vendor/" ++ path) path (cleanF par.Dir).length [] := by
  unfold vendoredImportPath
  simp only [hskip, Bool.false_eq_true, if_false]
  rw [if_neg (show ¬(¬(cleanF par.Root).toList.isPrefixOf (cleanF par.Dir).toList = true ∨
      (cleanF par.Dir).length ≤ (cleanF par.Root).length ∨
      ¬(cleanF par.Dir).toList.getD (cleanF par.Root).length ' ' = '/') from by
    rintro (h | h | h)
    · exact h hpre
    · omega
    · exact h hsep)]
  rw [if_neg (by simp [hcwd])]

/-- C3: for every parent package under the current working root whose
raw import path matches no skip predicate, the vendor walk proceeds one
path-segment boundary at a time from the parent's directory down to its
root; the deepest boundary carrying an existing `vendor/<raw>` directory
wins, and the effective import path is the parent's import path
truncated by the chopped amount followed by `/vendor/<raw>` (exactly
`vendor/<raw>` when the truncation consumes one character more than the
whole parent import path); with no candidate anywhere, the original path
is returned together with the list of `vendor/<raw>` candidates that
were examined. -/
theorem c3_vendor_walk_deepest_wins (skip : List (String → Bool)) (isDir : String → Bool)
    (cleanF : String → String) (cwd : String) (par : ParentInfo) (path : String)
    (hskip : skip.any (fun m => m path) = false)
    (hpre : (cleanF par.Root).toList.isPrefixOf (cleanF par.Dir).toList = true)
    (hlen : (cleanF par.Root).length < (cleanF par.Dir).length)
    (hsep : (cleanF par.Dir).toList.getD (cleanF par.Root).length ' ' = '/')
    (hcwd : inCWD cwd (cleanF par.Dir) = true) :
    (∀ j, (cleanF par.Root).length ≤ j → j ≤ (cleanF par.Dir).length →
      stepCand isDir (cleanF par.Dir).toList ("vendor/" ++ path) j →
      (∀ k < (cleanF par.Dir).length + 1, j < k →
        ¬stepCand isDir (cleanF par.Dir).toList ("vendor/" ++ path) k) →
      ((cleanF par.Dir).length - j ≤ par.ImportPath.length →
        vendoredImportPath skip isDir cleanF cwd (some par) path =
          some (String.mk (par.ImportPath.toList.take
              (par.ImportPath.length - ((cleanF par.Dir).length - j))) ++ "/" ++
            ("vendor/" ++ path), [])) ∧
      ((cleanF par.Dir).length - j = par.ImportPath.length + 1 →
        vendoredImportPath skip isDir cleanF cwd (some par) path =
          some ("vendor/" ++ path, []))) ∧
    ((∀ k < (cleanF par.Dir).length + 1, (cleanF par.Root).length ≤ k →
        ¬stepCand isDir (cleanF par.Dir).toList ("vendor/" ++ path) k) →
      vendoredImportPath skip isDir cleanF cwd (some par) path =
        some (path, searchedFrom isDir (cleanF par.Dir).toList (cleanF par.Root).length
          ("vendor/" ++ path) (cleanF par.Dir).length)) := by
  have hbase := vendoredImportPath_eq_loop skip isDir cleanF cwd par path hskip hpre hlen
    hsep hcwd
  constructor
  · intro j hj1 hj2 hcand hmax
    have hfound := vipLoop_found isDir (cleanF par.Dir).toList (cleanF par.Root).length
      par.ImportPath ("vendor/" ++ path) path (cleanF par.Dir).length [] j hj1 hj2 hcand
      (fun k hk1 hk2 => hmax k (by omega) hk1)
    have hdl : (cleanF par.Dir).length = (cleanF par.Dir).toList.length := rfl
    constructor
    · intro hle
      rw [hbase, hfound]
      unfold vipFound
      rw [if_neg (by omega), if_neg (by omega)]
      rfl
    · intro heq
      rw [hbase, hfound]
      unfold vipFound
      rw [if_pos (by omega : (cleanF par.Dir).toList.length - j = par.ImportPath.length + 1)]
  · intro hnone
    rw [hbase, vipLoop_notfound isDir (cleanF par.Dir).toList (cleanF par.Root).length
      par.ImportPath ("vendor/" ++ path) path (cleanF par.Dir).length []
      (fun k hk1 hk2 => hnone k (by omega) hk1)]
    rw [List.nil_append]

/-- c3_witness applies C3 in the closest-vendor-wins scenario: parent
`a/b` under root `/g`, nested `a/vendor/d` and `a/b/vendor/d` both
present, the deepest boundary (the parent directory itself) wins and
yields `a/b/vendor/d`. -/
theorem c3_witness :
    vendoredImportPath [] c3IsDir id "/g/src" (some c3Par) "d" =
      some ("a/b/vendor/d", []) := by
  have h := ((c3_vendor_walk_deepest_wins [] c3IsDir id "/g/src" c3Par "d" rfl (by decide)
    (by decide) (by decide) (by decide)).1 10 (by decide) (by decide) (by decide)
    (by decide)).1 (by decide)
  rw [h]
  rfl

/-- C6: resolution yields the vendored copy's expanded import path when
a vendor copy of the raw path exists on the parent's upward walk, but
the raw path is returned unchanged when it matches a caller-supplied
update (skip) pattern, when the parent's directory lies outside the
current working root, or when there is no parent. -/
theorem c6_vendor_shadowing :
    (∀ (skip : List (String → Bool)) (isDir : String → Bool) (cleanF : String → String)
        (cwd path : String),
      vendoredImportPath skip isDir cleanF cwd none path = some (path, [])) ∧
    (∀ (skip : List (String → Bool)) (isDir : String → Bool) (cleanF : String → String)
        (cwd path : String) (par : ParentInfo),
      skip.any (fun m => m path) = true →
      vendoredImportPath skip isDir cleanF cwd (some par) path = some (path, [])) ∧
    (∀ (skip : List (String → Bool)) (isDir : String → Bool) (cleanF : String → String)
        (cwd path : String) (par : ParentInfo),
      skip.any (fun m => m path) = false →
      (cleanF par.Root).toList.isPrefixOf (cleanF par.Dir).toList = true →
      (cleanF par.Root).length < (cleanF par.Dir).length →
      (cleanF par.Dir).toList.getD (cleanF par.Root).length ' ' = '/' →
      inCWD cwd (cleanF par.Dir) = false →
      vendoredImportPath skip isDir cleanF cwd (some par) path = some (path, [])) ∧
    (∀ (skip : List (String → Bool)) (isDir : String → Bool) (cleanF : String → String)
        (cwd path : String) (par : ParentInfo) (j : Nat),
      skip.any (fun m => m path) = false →
      (cleanF par.Root).toList.isPrefixOf (cleanF par.Dir).toList = true →
      (cleanF par.Root).length < (cleanF par.Dir).length →
      (cleanF par.Dir).toList.getD (cleanF par.Root).length ' ' = '/' →
      inCWD cwd (cleanF par.Dir) = true →
      (cleanF par.Root).length ≤ j → j ≤ (cleanF par.Dir).length →
      stepCand isDir (cleanF par.Dir).toList ("vendor/" ++ path) j →
      (∀ k < (cleanF par.Dir).length + 1, j < k →
        ¬stepCand isDir (cleanF par.Dir).toList ("vendor/" ++ path) k) →
      (cleanF par.Dir).length - j ≤ par.ImportPath.length →
      vendoredImportPath skip isDir cleanF cwd (some par) path =
        some (String.mk (par.ImportPath.toList.take
            (par.ImportPath.length - ((cleanF par.Dir).length - j))) ++ "/" ++
          ("vendor/" ++ path), [])) := by
  refine ⟨?_, ?_, ?_, ?_⟩
  · intro skip isDir cleanF cwd path
    rfl
  · intro skip isDir cleanF cwd path par h
    simp [vendoredImportPath, h]
  · intro skip isDir cleanF cwd path par hskip hpre hlen hsep hcwd
    unfold vendoredImportPath
    simp only [hskip, Bool.false_eq_true, if_false]
    rw [if_neg (show ¬(¬(cleanF par.Root).toList.isPrefixOf (cleanF par.Dir).toList = true ∨
        (cleanF par.Dir).length ≤ (cleanF par.Root).length ∨
        ¬(cleanF par.Dir).toList.getD (cleanF par.Root).length ' ' = '/') from by
      rintro (h | h | h)
      · exact h hpre
      · omega
      · exact h hsep)]
    rw [if_pos hcwd]
  · intro skip isDir cleanF cwd path par j hskip hpre hlen hsep hcwd hj1 hj2 hcand hmax hle
    have hbase := vendoredImportPath_eq_loop skip isDir cleanF cwd par path hskip hpre hlen
      hsep hcwd
    have hfound := vipLoop_found isDir (cleanF par.Dir).toList (cleanF par.Root).length
      par.ImportPath ("vendor/" ++ path) path (cleanF par.Dir).length [] j hj1 hj2 hcand
      (fun k hk1 hk2 => hmax k (by omega) hk1)
    have hdl : (cleanF par.Dir).length = (cleanF par.Dir).toList.length := rfl
    rw [hbase, hfound]
    unfold vipFound
    rw [if_neg (by omega), if_neg (by omega)]
    rfl

/-- c6_witness applies C6's shadowing conjunct: parent `p` under root
`/g` with `p/vendor/d` present resolves the import `d` to
`p/vendor/d`. -/
theorem c6_witness :
    vendoredImportPath [] c6IsDir id "/g/src" (some c6Par) "d" =
      some ("p/vendor/d", []) := by
  have h := c6_vendor_shadowing.2.2.2 [] c6IsDir id "/g/src" "d" c6Par 8 rfl (by decide)
    (by decide) (by decide) (by decide) (by decide) (by decide) (by decide) (by decide)
    (by decide)
  rw [h]
  rfl

/-! ## Theorems: the import loop of loadDeps (claims C4 and C8) -/

theorem loopStepProgErr_deps (p1 : Package) (stk : List String) (path : String)
    (st : DepsLoopSt) : (loopStepProgErr p1 stk path st).deps = st.deps := by
  unfold loopStepProgErr
  by_cases h : p1.Name = "main"
  · rw [if_pos h]
  · rw [if_neg h]

theorem loopStepImports_deps (rpath : String) (i : Nat) (st : DepsLoopSt) :
    (loopStepImports rpath i st).deps = st.deps := by
  unfold loopStepImports
  by_cases h : i < st.build.Imports.length
  · rw [if_pos h]
  · rw [if_neg h]

theorem mapInsert_keys (k : String) (v : Package) :
    ∀ m : List (String × Package),
      (mapInsert k v m).map Prod.fst =
        if k ∈ m.map Prod.fst then m.map Prod.fst else m.map Prod.fst ++ [k]
  | [] => by simp [mapInsert]
  | kv :: rest => by
      rw [mapInsert]
      by_cases h : kv.1 = k
      · rw [if_pos h]
        have hmem : k ∈ (kv :: rest).map Prod.fst := by
          rw [List.map_cons]
          exact h ▸ List.mem_cons_self _ _
        rw [if_pos hmem, List.map_cons, List.map_cons, h]
      · rw [if_neg h, List.map_cons, List.map_cons, mapInsert_keys k v rest]
        by_cases h2 : k ∈ rest.map Prod.fst
        · rw [if_pos h2, if_pos (List.mem_cons_of_mem _ h2)]
        · rw [if_neg h2, if_neg (by
            rw [List.mem_cons]
            rintro (h3 | h3)
            · exact h h3.symm
            · exact h2 h3), List.cons_append]

theorem mem_mapInsert_self (k : String) (v : Package) (m : List (String × Package)) :
    k ∈ (mapInsert k v m).map Prod.fst := by
  rw [mapInsert_keys]
  by_cases h : k ∈ m.map Prod.fst
  · rw [if_pos h]; exact h
  · rw [if_neg h]
    exact List.mem_append_right _ (List.mem_singleton_self k)

theorem mem_mapInsert_of_mem (k k' : String) (v : Package) (m : List (String × Package))
    (h : k' ∈ m.map Prod.fst) : k' ∈ (mapInsert k v m).map Prod.fst := by
  rw [mapInsert_keys]
  by_cases h2 : k ∈ m.map Prod.fst
  · rw [if_pos h2]; exact h
  · rw [if_neg h2]; exact List.mem_append_left _ h

theorem nodup_mapInsert (k : String) (v : Package) (m : List (String × Package))
    (h : (m.map Prod.fst).Nodup) : ((mapInsert k v m).map Prod.fst).Nodup := by
  rw [mapInsert_keys]
  by_cases h2 : k ∈ m.map Prod.fst
  · rw [if_pos h2]; exact h
  · rw [if_neg h2, List.nodup_append]
    exact ⟨h, List.nodup_singleton k,
      fun a ha hb => h2 (by rwa [List.mem_singleton.mp hb] at ha)⟩

theorem mapInsert_inv (v : Package) :
    ∀ m : List (String × Package), (∀ kv ∈ m, kv.1 = kv.2.ImportPath) →
      ∀ kv ∈ mapInsert v.ImportPath v m, kv.1 = kv.2.ImportPath
  | [], _, kv, hkv => by
      rw [mapInsert] at hkv
      rw [List.mem_singleton.mp hkv]
  | kv0 :: rest, hinv, kv, hkv => by
      rw [mapInsert] at hkv
      by_cases h : kv0.1 = v.ImportPath
      · rw [if_pos h] at hkv
        rcases List.mem_cons.mp hkv with h1 | h1
        · rw [h1]
        · exact hinv kv (List.mem_cons_of_mem _ h1)
      · rw [if_neg h] at hkv
        rcases List.mem_cons.mp hkv with h1 | h1
        · exact hinv kv (h1 ▸ List.mem_cons_self _ _)
        · exact mapInsert_inv v rest
            (fun kv2 hk => hinv kv2 (List.mem_cons_of_mem _ hk)) kv h1

theorem foldMerge_mem (k' : String) :
    ∀ (l : List Package) (m : List (String × Package)), k' ∈ m.map Prod.fst →
      k' ∈ (l.foldl (fun acc dep => mapInsert dep.ImportPath dep acc) m).map Prod.fst
  | [], _, h => h
  | d :: rest, m, h =>
      foldMerge_mem k' rest (mapInsert d.ImportPath d m) (mem_mapInsert_of_mem _ k' _ m h)

theorem foldMerge_inv :
    ∀ (l : List Package) (m : List (String × Package)),
      (∀ kv ∈ m, kv.1 = kv.2.ImportPath) →
      ∀ kv ∈ l.foldl (fun acc dep => mapInsert dep.ImportPath dep acc) m,
        kv.1 = kv.2.ImportPath
  | [], _, h => h
  | d :: rest, m, h => foldMerge_inv rest _ (mapInsert_inv d m h)

theorem foldMerge_nodup :
    ∀ (l : List Package) (m : List (String × Package)), (m.map Prod.fst).Nodup →
      ((l.foldl (fun acc dep => mapInsert dep.ImportPath dep acc) m).map Prod.fst).Nodup
  | [], _, h => h
  | d :: rest, m, h => foldMerge_nodup rest _ (nodup_mapInsert d.ImportPath d m h)

theorem loadDepsLoop_no_local (loadImp : String → Package) (stk : List String) :
    ∀ (paths : List String) (i : Nat) (st : DepsLoopSt),
      (∀ x ∈ paths, IsLocalImport x = false) →
      (∀ kv ∈ st.deps, kv.1 = kv.2.ImportPath) →
      (st.deps.map Prod.fst).Nodup →
      (loadDepsLoop loadImp stk paths i st).2 = false ∧
      (∀ kv ∈ (loadDepsLoop loadImp stk paths i st).1.deps, kv.1 = kv.2.ImportPath) ∧
      ((loadDepsLoop loadImp stk paths i st).1.deps.map Prod.fst).Nodup ∧
      (∀ k, k ∈ st.deps.map Prod.fst →
        k ∈ (loadDepsLoop loadImp stk paths i st).1.deps.map Prod.fst) ∧
      (∀ x ∈ paths, x ≠ "C" → (loadImp x).Standard = false →
        (loadImp x).ImportPath ∈ (loadDepsLoop loadImp stk paths i st).1.deps.map Prod.fst)
  | [], i, st, _, hinv, hnd => by
      refine ⟨rfl, hinv, hnd, fun _ h => h, ?_⟩
      intro x hx
      exact absurd hx (List.not_mem_nil x)
  | path :: rest, i, st, hnl, hinv, hnd => by
      rw [loadDepsLoop]
      by_cases hC : path = "C"
      · rw [if_pos hC]
        have IH := loadDepsLoop_no_local loadImp stk rest (i + 1) st
          (fun x hx => hnl x (List.mem_cons_of_mem _ hx)) hinv hnd
        refine ⟨IH.1, IH.2.1, IH.2.2.1, IH.2.2.2.1, ?_⟩
        intro x hx hxC hxs
        rcases List.mem_cons.mp hx with rfl | hx2
        · exact absurd hC hxC
        · exact IH.2.2.2.2 x hx2 hxC hxs
      · rw [if_neg hC, if_neg (by simp [hnl path (List.mem_cons_self _ _)])]
        have hd2 : (loopStepImports (loadImp path).ImportPath i
            (loopStepProgErr (loadImp path) stk path st)).deps = st.deps := by
          rw [loopStepImports_deps, loopStepProgErr_deps]
        by_cases hstd : (loadImp path).Standard = true
        · rw [if_pos hstd]
          have IH := loadDepsLoop_no_local loadImp stk rest (i + 1)
            (loopStepImports (loadImp path).ImportPath i
              (loopStepProgErr (loadImp path) stk path st))
            (fun x hx => hnl x (List.mem_cons_of_mem _ hx))
            (by rw [hd2]; exact hinv) (by rw [hd2]; exact hnd)
          refine ⟨IH.1, IH.2.1, IH.2.2.1, ?_, ?_⟩
          · intro k hk
            exact IH.2.2.2.1 k (by rw [hd2]; exact hk)
          · intro x hx hxC hxs
            rcases List.mem_cons.mp hx with rfl | hx2
            · rw [hxs] at hstd
              exact absurd hstd (by decide)
            · exact IH.2.2.2.2 x hx2 hxC hxs
        · rw [if_neg hstd]
          have hd3 : (loopStepDeps (loadImp path)
              (loopStepImports (loadImp path).ImportPath i
                (loopStepProgErr (loadImp path) stk path st))).deps =
              ((loadImp path).deps.foldl (fun acc dep => mapInsert dep.ImportPath dep acc)
                (mapInsert (loadImp path).ImportPath (loadImp path) st.deps)) := by
            unfold loopStepDeps
            rw [hd2]
          have IH := loadDepsLoop_no_local loadImp stk rest (i + 1)
            (loopStepDeps (loadImp path)
              (loopStepImports (loadImp path).ImportPath i
                (loopStepProgErr (loadImp path) stk path st)))
            (fun x hx => hnl x (List.mem_cons_of_mem _ hx))
            (by
              intro kv hkv
              rw [hd3] at hkv
              exact foldMerge_inv _ _ (mapInsert_inv (loadImp path) st.deps hinv) kv hkv)
            (by
              rw [hd3]
              exact foldMerge_nodup _ _ (nodup_mapInsert (loadImp path).ImportPath _ _ hnd))
          refine ⟨IH.1, IH.2.1, IH.2.2.1, ?_, ?_⟩
          · intro k hk
            refine IH.2.2.2.1 k ?_
            rw [hd3]
            exact foldMerge_mem k _ _ (mem_mapInsert_of_mem _ k _ _ hk)
          · intro x hx hxC hxs
            rcases List.mem_cons.mp hx with rfl | hx2
            · refine IH.2.2.2.1 (loadImp x).ImportPath ?_
              rw [hd3]
              exact foldMerge_mem _ _ _ (mem_mapInsert_self (loadImp x).ImportPath _ _)
            · exact IH.2.2.2.2 x hx2 hxC hxs

theorem loadDepsFinish_not_early (sf : Char → Char) (p : Package) (stk : List String)
    (res : DepsLoopSt × Bool) (h2 : res.2 = false) :
    (loadDepsFinish sf p stk res).loadedDeps = true ∧
    (loadDepsFinish sf p stk res).deps =
      p.deps ++ (List.insertionSort entryLe res.1.deps).map Prod.snd := by
  unfold loadDepsFinish
  rw [if_neg (by simp [h2])]
  exact ⟨rfl, rfl⟩

theorem loadDepsFinish_collision (sf : Char → Char) (p : Package) (stk : List String)
    (res : DepsLoopSt × Bool) (h2 : res.2 = false)
    (herr : (((List.insertionSort entryLe res.1.deps).map Prod.snd).any
      fun q => q.Error.isSome) = false)
    (hdd : (foldDup sf ((List.insertionSort entryLe res.1.deps).map Prod.fst)).1 ≠ "") :
    (loadDepsFinish sf p stk res).Error =
      some (mkLoadErr stk ("case-insensitive import collision: " ++
        quoteGo (foldDup sf ((List.insertionSort entryLe res.1.deps).map Prod.fst)).1 ++
        " and " ++
        quoteGo (foldDup sf ((List.insertionSort entryLe res.1.deps).map Prod.fst)).2)) := by
  unfold loadDepsFinish
  rw [if_neg (by simp [h2])]
  simp only [Package.error_mk]
  rw [if_pos herr, if_pos hdd]

/-- C4 (counterexample): the claim says the failure of one import — for
example a local-style import in a non-local package — does not abort
resolution of the sibling imports.  At the concrete package with import
list `["./x", "good"]` the code records the local-import error and
returns at once: `good` is never resolved (the result is the same under
any loader oracle), the dependency list stays empty and `loadedDeps`
stays unset. -/
theorem c4_local_import_aborts_siblings :
    (loadDeps asciiFold c4OracleGood c4Pkg ["p"] none).deps = [] ∧
    (loadDeps asciiFold c4OracleGood c4Pkg ["p"] none).loadedDeps = false ∧
    (loadDeps asciiFold c4OracleGood c4Pkg ["p"] none).Error =
      some (mkLoadErr ["p"] ("local import " ++ quoteGo "./x" ++ " in non-local package")) ∧
    loadDeps asciiFold c4OracleGood c4Pkg ["p"] none =
      loadDeps asciiFold c4OracleErr c4Pkg ["p"] none :=
  ⟨rfl, rfl, rfl, rfl⟩

/-- C4 (amended): when the combined import list contains no local-style import,
every import is attempted independently: failures of individual imports
(a load error recorded on the resolved package, or resolving to
a program) do not abort the siblings — every non-`"C"`, non-standard import's
resolved path ends up in the final dependency set, and the loop
runs to completion. -/
theorem c4_sibling_independence (sf : Char → Char) (loadImp : String → Package)
    (p : Package) (stk : List String)
    (hcol : (foldDup sf (allSourceFiles p.build)).1 = "")
    (hnl : ∀ x ∈ p.build.Imports ++ p.build.TestImports ++ p.build.XTestImports,
      IsLocalImport x = false) :
    (loadDeps sf loadImp p stk none).loadedDeps = true ∧
    ∀ x ∈ p.build.Imports ++ p.build.TestImports ++ p.build.XTestImports,
      x ≠ "C" → (loadImp x).Standard = false →
      (loadImp x).ImportPath ∈ (loadDeps sf loadImp p stk none).deps.map Package.ImportPath := by
  have hld : loadDeps sf loadImp p stk none =
      loadDepsFinish sf p stk (loadDepsLoop loadImp stk
        (p.build.Imports ++ p.build.TestImports ++ p.build.XTestImports) 0
        ⟨p.build, p.Error, []⟩) := by
    unfold loadDeps
    rw [if_neg (by simp [hcol])]
  have L := loadDepsLoop_no_local loadImp stk
    (p.build.Imports ++ p.build.TestImports ++ p.build.XTestImports) 0
    ⟨p.build, p.Error, []⟩ hnl
    (by intro kv hkv; exact absurd hkv (List.not_mem_nil kv)) (by simp)
  have F := loadDepsFinish_not_early sf p stk _ L.1
  constructor
  · rw [hld]
    exact F.1
  · intro x hx hxC hxs
    have hk := L.2.2.2.2 x hx hxC hxs
    have hperm := List.perm_insertionSort entryLe
      (loadDepsLoop loadImp stk
        (p.build.Imports ++ p.build.TestImports ++ p.build.XTestImports) 0
        ⟨p.build, p.Error, []⟩).1.deps
    have hk2 : (loadImp x).ImportPath ∈
        (List.insertionSort entryLe (loadDepsLoop loadImp stk
          (p.build.Imports ++ p.build.TestImports ++ p.build.XTestImports) 0
          ⟨p.build, p.Error, []⟩).1.deps).map Prod.fst :=
      ((hperm.map Prod.fst).mem_iff).mpr hk
    have hmap : (List.insertionSort entryLe (loadDepsLoop loadImp stk
          (p.build.Imports ++ p.build.TestImports ++ p.build.XTestImports) 0
          ⟨p.build, p.Error, []⟩).1.deps).map Prod.fst =
        ((List.insertionSort entryLe (loadDepsLoop loadImp stk
          (p.build.Imports ++ p.build.TestImports ++ p.build.XTestImports) 0
          ⟨p.build, p.Error, []⟩).1.deps).map Prod.snd).map Package.ImportPath := by
      rw [List.map_map]
      exact List.map_congr_left fun kv hkv => L.2.1 kv (hperm.subset hkv)
    rw [hld, F.2, List.map_append]
    refine List.mem_append_right _ ?_
    rw [← hmap]
    exact hk2

/-- c4_witness applies the amended C4 to a package whose first import
resolves with a load error and whose second import is clean: the clean
sibling still lands in the dependency set. -/
theorem c4_witness :
    "good" ∈ (loadDeps asciiFold c4Mixed c4PkgB ["p"] none).deps.map Package.ImportPath :=
  (c4_sibling_independence asciiFold c4Mixed c4PkgB ["p"] (by decide) (by decide)).2
    "good" (by decide) (by decide) (by decide)

/-- C8 (counterexample): the claim says that after dependency resolution
completes, any fold-equal pair in the final dependency path set is
recorded as the package's own error.  With imports `A` and `a` where `a`
carries a load error, the final path set `["A", "a"]` is fold-equal, yet
the code skips the collision check because a dependency has an error:
the package's error stays `none`. -/
theorem c8_collision_skipped_counterexample :
    (loadDeps asciiFold c8OracleErr c8Pkg ["p"] none).deps.map Package.ImportPath =
      ["A", "a"] ∧
    (foldDup asciiFold ["A", "a"]).1 ≠ "" ∧
    (loadDeps asciiFold c8OracleErr c8Pkg ["p"] none).Error = none ∧
    (loadDeps asciiFold c8OracleErr c8Pkg ["p"] none).loadedDeps = true :=
  ⟨rfl, by decide, rfl, rfl⟩

/-- C8 (amended): after the import loop completes (no local-style import),
the final dependency path list is the sorted, duplicate-free
key list of the dependency map, and — provided no collected dependency
carries an error — a fold-equal pair in it is recorded as the package's
own error by the collision check. -/
theorem c8_import_collision_after_deps (sf : Char → Char) (loadImp : String → Package)
    (p : Package) (stk : List String)
    (hcol : (foldDup sf (allSourceFiles p.build)).1 = "")
    (hnl : ∀ x ∈ p.build.Imports ++ p.build.TestImports ++ p.build.XTestImports,
      IsLocalImport x = false)
    (herr : (((List.insertionSort entryLe (loadDepsLoop loadImp stk
        (p.build.Imports ++ p.build.TestImports ++ p.build.XTestImports) 0
        ⟨p.build, p.Error, []⟩).1.deps).map Prod.snd).any fun q => q.Error.isSome) = false)
    (hdd : (foldDup sf ((List.insertionSort entryLe (loadDepsLoop loadImp stk
        (p.build.Imports ++ p.build.TestImports ++ p.build.XTestImports) 0
        ⟨p.build, p.Error, []⟩).1.deps).map Prod.fst)).1 ≠ "") :
    (loadDeps sf loadImp p stk none).Error =
      some (mkLoadErr stk ("case-insensitive import collision: " ++
        quoteGo (foldDup sf ((List.insertionSort entryLe (loadDepsLoop loadImp stk
          (p.build.Imports ++ p.build.TestImports ++ p.build.XTestImports) 0
          ⟨p.build, p.Error, []⟩).1.deps).map Prod.fst)).1 ++ " and " ++
        quoteGo (foldDup sf ((List.insertionSort entryLe (loadDepsLoop loadImp stk
          (p.build.Imports ++ p.build.TestImports ++ p.build.XTestImports) 0
          ⟨p.build, p.Error, []⟩).1.deps).map Prod.fst)).2)) ∧
    List.Sorted entryLe (List.insertionSort entryLe (loadDepsLoop loadImp stk
      (p.build.Imports ++ p.build.TestImports ++ p.build.XTestImports) 0
      ⟨p.build, p.Error, []⟩).1.deps) ∧
    ((List.insertionSort entryLe (loadDepsLoop loadImp stk
      (p.build.Imports ++ p.build.TestImports ++ p.build.XTestImports) 0
      ⟨p.build, p.Error, []⟩).1.deps).map Prod.fst).Nodup := by
  have hld : loadDeps sf loadImp p stk none =
      loadDepsFinish sf p stk (loadDepsLoop loadImp stk
        (p.build.Imports ++ p.build.TestImports ++ p.build.XTestImports) 0
        ⟨p.build, p.Error, []⟩) := by
    unfold loadDeps
    rw [if_neg (by simp [hcol])]
  have L := loadDepsLoop_no_local loadImp stk
    (p.build.Imports ++ p.build.TestImports ++ p.build.XTestImports) 0
    ⟨p.build, p.Error, []⟩ hnl
    (by intro kv hkv; exact absurd hkv (List.not_mem_nil kv)) (by simp)
  refine ⟨?_, ?_, ?_⟩
  · rw [hld]
    exact loadDepsFinish_collision sf p stk _ L.1 herr hdd
  · haveI : IsTotal (String × Package) entryLe := ⟨fun a b => strLe_total a.1 b.1⟩
    haveI : IsTrans (String × Package) entryLe := ⟨fun _ _ _ => strLe_trans⟩
    exact List.sorted_insertionSort entryLe _
  · have hperm := List.perm_insertionSort entryLe
      (loadDepsLoop loadImp stk
        (p.build.Imports ++ p.build.TestImports ++ p.build.XTestImports) 0
        ⟨p.build, p.Error, []⟩).1.deps
    exact ((hperm.map Prod.fst).nodup_iff).mpr L.2.2.1

/-- c8_witness applies the amended C8 to the package importing `A` and
`a` where both resolve cleanly: the fold-equal pair is recorded as the
package's import-collision error. -/
theorem c8_witness :
    (loadDeps asciiFold c8OracleOk c8Pkg ["p"] none).Error =
      some (mkLoadErr ["p"] ("case-insensitive import collision: " ++ quoteGo "A" ++
        " and " ++ quoteGo "a")) :=
  (c8_import_collision_after_deps asciiFold c8OracleOk c8Pkg ["p"] (by decide) (by decide)
    (by decide) (by decide)).1

/-- c9_witness applies C9 to a fresh load of `fmt` out of the Go root:
the result is the standard-flagged package with an empty dependency
list, inserted into the cache, independent of the `loadDeps` oracle. -/
theorem c9_witness :
    loadImportModel [] (fun _ => false) id "/c" c9ImportFn (fun p _ _ => p) [] "fmt" "/src"
        none [] [] =
      some (c9StdPkg, [("fmt", c9StdPkg)]) ∧
    c9StdPkg.deps = [] ∧
    loadImportModel [] (fun _ => false) id "/c" c9ImportFn (fun p _ _ => p) [] "fmt" "/src"
        none [] [] =
      loadImportModel [] (fun _ => false) id "/c" c9ImportFn
        (fun p _ e => p.withError (some (mkLoadErr [] (e.getD "")))) [] "fmt" "/src"
        none [] [] := by
  have h := c9_standard_flag_and_early_return.2 [] (fun _ => false) id "/c" c9ImportFn []
    "fmt" "/src" none [] [] "fmt" [] rfl rfl (by decide) (fun p _ _ => p)
    (fun p _ e => p.withError (some (mkLoadErr [] (e.getD ""))))
  exact ⟨h.1, h.2.1, h.2.2.2⟩
